import Mathlib

/-!
Verification development for the neomura aseprite-to-C tool.

The definitions below are a shallow embedding of the core transform
pipeline of `src/index.ts`: frame derivation (geometry checks, duration
quantization, pixel extraction), tag expansion (directional index
sequences and the duration ceiling), and the code emitter's header and
source templates.  The identifier normalizer
(`convertFileNameToIdentifier`) is modelled from the spec, as its
implementation file is not part of the repository snapshot; its unit
tests are reproduced as theorems to pin the model to the tested
behavior.

Machine integers of the source (JS numbers holding integers) are
embedded as `Nat`/`Int`; the fractional frame offsets
(`spriteSourceSize - sourceSize / 2`, an integer or half-integer) are
embedded exactly as their doubles, so every definition stays
kernel-computable.
-/

/-! ## Generic string helpers -/

/-- JS `Array.prototype.join(sep)` on a list of strings. -/
def joinSep (sep : String) : List String → String
  | [] => ""
  | [x] => x
  | x :: y :: xs => x ++ sep ++ joinSep sep (y :: xs)

/-- `map` that passes the element's index to the function, as
JS `array.map((x, index) => ...)` does. -/
def mapWithIdx (f : Nat → α → β) : List α → List β :=
  go 0
where
  go : Nat → List α → List β
    | _, [] => []
    | i, a :: as => f i a :: go (i + 1) as

/-- Does `l` start with `p`? -/
def startsWithB : List Char → List Char → Bool
  | _, [] => true
  | [], _ :: _ => false
  | a :: as, b :: bs => (a == b) && startsWithB as bs

/-- Does `l` contain `p` as a contiguous run? -/
def containsB : List Char → List Char → Bool
  | [], p => startsWithB [] p
  | a :: as, p => startsWithB (a :: as) p || containsB as p

theorem startsWithB_append (p r : List Char) : startsWithB (p ++ r) p = true := by
  induction p with
  | nil => cases r <;> rfl
  | cons a as ih => simp [startsWithB, ih]

theorem containsB_of_startsWith (big pat : List Char) (h : startsWithB big pat = true) :
    containsB big pat = true := by
  cases big with
  | nil => simpa [containsB] using h
  | cons a as => simp [containsB, h]

theorem containsB_of_parts (big pat l r : List Char) (h : big = l ++ pat ++ r) :
    containsB big pat = true := by
  subst h
  induction l with
  | nil =>
    apply containsB_of_startsWith
    simpa using startsWithB_append pat r
  | cons a as ih =>
    have : containsB (a :: (as ++ pat ++ r)) pat
        = (startsWithB (a :: (as ++ pat ++ r)) pat || containsB (as ++ pat ++ r) pat) := rfl
    simp only [List.cons_append, this, ih, Bool.or_true]

/-- Decimal digit character, as JS number formatting produces. -/
def digitCh : Nat → Char
  | 0 => '0' | 1 => '1' | 2 => '2' | 3 => '3' | 4 => '4'
  | 5 => '5' | 6 => '6' | 7 => '7' | 8 => '8' | _ => '9'

/-- Lowercase hexadecimal digit character, as JS `toString(16)` produces. -/
def hexDigitCh : Nat → Char
  | 0 => '0' | 1 => '1' | 2 => '2' | 3 => '3' | 4 => '4'
  | 5 => '5' | 6 => '6' | 7 => '7' | 8 => '8' | 9 => '9'
  | 10 => 'a' | 11 => 'b' | 12 => 'c' | 13 => 'd' | 14 => 'e' | _ => 'f'

/-- The decimal digits of `n`, most significant first, recursing on an
explicit fuel so the definition is structural (the fuel `n + 1` never
runs out: each step divides `n` by 10). -/
def natToDigitsFuel : Nat → Nat → List Char
  | 0, _ => []
  | f + 1, n =>
    if n < 10 then [digitCh n]
    else natToDigitsFuel f (n / 10) ++ [digitCh (n % 10)]

/-- The decimal digits of `n`, most significant first. -/
def natToDigits (n : Nat) : List Char := natToDigitsFuel (n + 1) n

/-- The lowercase hexadecimal digits of `n`, most significant first,
with the same fuel pattern. -/
def natToHexDigitsFuel : Nat → Nat → List Char
  | 0, _ => []
  | f + 1, n =>
    if n < 16 then [hexDigitCh n]
    else natToHexDigitsFuel f (n / 16) ++ [hexDigitCh (n % 16)]

/-- The lowercase hexadecimal digits of `n`, most significant first. -/
def natToHexDigits (n : Nat) : List Char := natToHexDigitsFuel (n + 1) n

/-- Decimal rendering of a natural, as JS renders an integral number. -/
def natRepr (n : Nat) : String := String.mk (natToDigits n)

/-- Lowercase hexadecimal rendering of a natural, as JS `toString(16)`. -/
def natHex (n : Nat) : String := String.mk (natToHexDigits n)

/-- Decimal rendering of an integer, as JS renders an integral number. -/
def intRepr (i : Int) : String :=
  (if i < 0 then "-" else "") ++ natRepr i.natAbs

/-- JS rendering of the offset value whose double is `x2`: the offsets
`spriteSourceSize - sourceSize / 2` are integers or half-integers, which
JS prints as `n` or `n.5` (possibly with a leading minus sign). -/
def halfRepr (x2 : Int) : String :=
  if x2 % 2 = 0 then intRepr (x2 / 2)
  else (if x2 < 0 then "-" else "") ++ natRepr (x2.natAbs / 2) ++ ".5"

/-! ## Frame derivation (`src/index.ts` lines 187-300) -/

/-- One entry of the metadata document's `frames` array: the frame
rectangle `frame{x,y,w,h}`, `spriteSourceSize{x,y}`, `sourceSize{w,h}`
and the millisecond `duration`. -/
structure RawFrame where
  x : Nat
  y : Nat
  w : Nat
  h : Nat
  ssx : Int
  ssy : Int
  sw : Nat
  sh : Nat
  duration : Nat

/-- The decoded sprite-sheet raster: width in pixels and the RGBA byte
sequence (row-major, 4 bytes per pixel). -/
structure Sheet where
  width : Nat
  data : List Nat

/-- The failures the transform raises (each `throw` of the core
pipeline, tagged with the data its message interpolates). -/
inductive ToolError where
  | frameWidthLimit (frameNumber width : Nat)
  | frameHeightLimit (frameNumber height : Nat)
  | frameXOffsetLimit (frameNumber : Nat) (xOffset2 : Int)
  | frameYOffsetLimit (frameNumber : Nat) (yOffset2 : Int)
  | durationIncompatible (frameNumber durationMs refreshRate : Nat)
  | frameCountLimit (count : Nat)
  | tagDurationLimit (tagName : String) (durationTicks : Nat)
deriving DecidableEq

/-- One derived frame record as `frames` builds it: validated geometry,
quantized duration and the `rgba` field. -/
structure DerivedFrame where
  width : Nat
  height : Nat
  xOffset2 : Int
  yOffset2 : Int
  duration : Nat
  rgba : List Nat
deriving DecidableEq

/-- Twice the source's `xOffset = spriteSourceSize.x - sourceSize.w / 2`
(the division is fractional, so the value is an integer or half-integer;
doubling keeps it an exact integer). -/
def xOffset2 (f : RawFrame) : Int := 2 * f.ssx - f.sw

/-- Twice the source's `yOffset = spriteSourceSize.y - sourceSize.h / 2`. -/
def yOffset2 (f : RawFrame) : Int := 2 * f.ssy - f.sh

/-- The per-frame body of the `frames` map (`src/index.ts` lines
194-300): the checks in source order, then the derived record.  The
offset comparisons against 32767 / -32768 are doubled along with the
offsets (`xOffset > 32767` iff `2 * xOffset > 65534`, and
`xOffset < -32768` iff `2 * xOffset < -65536`).  The returned `rgba` is
the whole sheet raster, mirroring the source's `rgba: png.data` at line
298 (the premultiplied buffer the loop fills is discarded). -/
def deriveFrame (index : Nat) (f : RawFrame) (refreshRate : Nat) (sheet : Sheet) :
    Except ToolError DerivedFrame :=
  if 65535 < f.w then .error (.frameWidthLimit (index + 1) f.w)
  else if 65535 < f.h then .error (.frameHeightLimit (index + 1) f.h)
  else if 65534 < xOffset2 f then .error (.frameXOffsetLimit (index + 1) (xOffset2 f))
  else if xOffset2 f < -65536 then .error (.frameXOffsetLimit (index + 1) (xOffset2 f))
  else if 65534 < yOffset2 f then .error (.frameYOffsetLimit (index + 1) (yOffset2 f))
  else if yOffset2 f < -65536 then .error (.frameYOffsetLimit (index + 1) (yOffset2 f))
  else if (f.duration * refreshRate) % 1000 ≠ 0 then
    .error (.durationIncompatible (index + 1) f.duration refreshRate)
  else
    .ok { width := f.w, height := f.h,
          xOffset2 := xOffset2 f, yOffset2 := yOffset2 f,
          duration := f.duration * refreshRate / 1000,
          rgba := sheet.data }

/-- Modelled from the spec: the `pixels` output the spec describes for a
frame (section 4.2) — a row-major byte sequence of length
`width × height × 4` addressed relative to the frame's top-left corner,
each R, G, B byte `floor(rawChannel × alpha / 255)` of the sheet pixel
inside the frame's rectangle, and `255 - alpha` as the fourth byte.
Kept beside `deriveFrame` to compare the code's `rgba` with the spec's
description. -/
def specFramePixels (f : RawFrame) (sheet : Sheet) : List Nat :=
  (List.range f.h).flatMap fun yy =>
    (List.range f.w).flatMap fun xx =>
      let base := ((yy + f.y) * sheet.width + (xx + f.x)) * 4
      let alpha := sheet.data.getD (base + 3) 0
      [ sheet.data.getD base 0 * alpha / 255,
        sheet.data.getD (base + 1) 0 * alpha / 255,
        sheet.data.getD (base + 2) 0 * alpha / 255,
        255 - alpha ]

deriving instance DecidableEq for Except

/-- The `rgba` field of a successful derivation. -/
def okRgba : Except ToolError DerivedFrame → Option (List Nat)
  | .ok df => some df.rgba
  | .error _ => none

/-- The `duration` (tick count) field of a successful derivation. -/
def okDuration : Except ToolError DerivedFrame → Option Nat
  | .ok df => some df.duration
  | .error _ => none

/-! ## Tag expansion (`src/index.ts` lines 308-355) -/

/-- An animation direction, the three values the metadata contract
allows (`forward`, `reverse`, `pingpong`). -/
inductive Direction where
  | forward
  | reverse
  | pingpong
deriving DecidableEq

/-- One entry of `meta.frameTags`: `name`, inclusive frame indices
`from` and `to`, and the playback `direction`. -/
structure RawTag where
  name : String
  «from» : Nat
  «to» : Nat
  direction : Direction
deriving DecidableEq

/-- The index-sequence loops of the tag map (`src/index.ts` lines
315-336): `forward` pushes `from..to` ascending, `reverse` pushes
`to..from` descending, `pingpong` pushes `from..to-1` ascending then
`to..from+1` descending (each loop body runs zero times when its bound
already fails). -/
def tagIndices (t : RawTag) : List Nat :=
  match t.direction with
  | .forward => List.range' t.«from» (t.«to» + 1 - t.«from»)
  | .reverse => (List.range' t.«from» (t.«to» + 1 - t.«from»)).reverse
  | .pingpong =>
      List.range' t.«from» (t.«to» - t.«from»)
        ++ (List.range' (t.«from» + 1) (t.«to» - t.«from»)).reverse

/-- The duration summation `duration += frames[index].duration`
(`src/index.ts` lines 344-348), with the frame lookup made total:
`none` when an index reaches past the end of the frame table (where the
JS crashes reading `.duration` of `undefined`). -/
def sumTagDurations (frames : List DerivedFrame) : List Nat → Option Nat
  | [] => some 0
  | i :: rest =>
    match frames.get? i with
    | none => none
    | some f => (sumTagDurations frames rest).map (f.duration + ·)

/-- One tag record as the tag map returns it. -/
structure ResolvedTag where
  name : String
  indices : List Nat
  duration : Nat
deriving DecidableEq

/-- The outcome of resolving one tag: the record, one of the declared
failures, or the crash of an out-of-range frame lookup (a JS TypeError,
not part of the declared error taxonomy). -/
inductive TagResult where
  | ok (tag : ResolvedTag)
  | failed (e : ToolError)
  | crashed
deriving DecidableEq

/-- The per-tag body of the tag map (`src/index.ts` lines 312-355):
expand the indices, sum the referenced durations, enforce the 65535
ceiling. -/
def resolveTag (frames : List DerivedFrame) (t : RawTag) : TagResult :=
  match sumTagDurations frames (tagIndices t) with
  | none => .crashed
  | some total =>
    if 65535 < total then .failed (.tagDurationLimit t.name total)
    else .ok ⟨t.name, tagIndices t, total⟩

/-- Is the outcome one of the declared errors of the taxonomy? -/
def isDeclaredError : TagResult → Bool
  | .failed _ => true
  | _ => false

/-! ## Code emission (`src/index.ts` lines 357-448) -/

/-- The characters after the last `/` of the list. -/
def baseNameL (cur : List Char) : List Char → List Char
  | [] => cur.reverse
  | c :: rest => if c = '/' then baseNameL [] rest else baseNameL (c :: cur) rest

/-- Node's `path.basename` as the emitter uses it on a file path: the
last `/`-separated component. -/
def baseName (p : String) : String := String.mk (baseNameL [] p.data)

/-- The path of the produced header file,
`` `${commandLineArguments.strings.output}.h` `` (line 444). -/
def headerFilePath (output : String) : String := output ++ ".h"

/-- The path of the produced source file (line 445). -/
def sourceFilePath (output : String) : String := output ++ ".c"

/-- One tag declaration line of the header template (line 374):
`` `extern const sprite_animation_t ${tag.name};` ``. -/
def tagHeaderDecl (t : ResolvedTag) : String :=
  "extern const sprite_animation_t " ++ t.name ++ ";"

/-- The header template (lines 361-376).  `inc1` and `inc2` are the two
already-relativized include paths. -/
def headerText (inc1 inc2 nm : String) (tags : List ResolvedTag) : String :=
  "#pragma once\n\n#include \"" ++ inc1 ++ "\"\n#include \"" ++ inc2
    ++ "\"\n\nextern const sprite_t " ++ nm ++ ";\n\n"
    ++ joinSep "\n" (tags.map tagHeaderDecl) ++ "\n"

/-- One `static const` array line of the source template (lines
382-396): `` `static const <cty> ${name}<suffix>[${n}] = { <cells> };` ``
and the newline that follows it. -/
def arrayLine (cty nm suffix lenStr : String) (cells : List String) : String :=
  "static const " ++ cty ++ " " ++ nm ++ suffix ++ "[" ++ lenStr
    ++ "] = \x7b " ++ joinSep ", " cells ++ " \x7d;\n"

/-- One frame's pixel array (lines 397-405):
`` `static const u8_t ${name}_rgba_${index}[${len}] = { 0x.., ... };` ``. -/
def frameRgbaDecl (nm : String) (index : Nat) (f : DerivedFrame) : String :=
  "static const u8_t " ++ nm ++ "_rgba_" ++ natRepr index ++ "[" ++ natRepr f.rgba.length
    ++ "] = \x7b " ++ joinSep ", " (f.rgba.map (fun b => "0x" ++ natHex b)) ++ " \x7d;"

/-- The aggregate `sprite_t` instance (lines 410-418) with the blank
lines around it. -/
def spriteStructDecl (nm : String) (count : Nat) : String :=
  "const sprite_t " ++ nm ++ " = \x7b\n  &" ++ nm ++ "_widths,\n  &" ++ nm
    ++ "_heights,\n  &" ++ nm ++ "_x_offsets,\n  &" ++ nm ++ "_y_offsets,\n  &" ++ nm
    ++ "_durations,\n  &" ++ nm ++ "_rgba,\n  " ++ natRepr count ++ "\n\x7d;\n\n"

/-- The frame half of the source template (lines 382-418): the five
parallel arrays, the per-frame pixel arrays, the pointer array and the
`sprite_t` instance. -/
def sourceFrameArrays (nm : String) (frames : List DerivedFrame) : String :=
  arrayLine "u16_t" nm "_widths" (natRepr frames.length) (frames.map (fun f => natRepr f.width))
    ++ arrayLine "u16_t" nm "_heights" (natRepr frames.length)
        (frames.map (fun f => natRepr f.height))
    ++ arrayLine "s16_t" nm "_x_offsets" (natRepr frames.length)
        (frames.map (fun f => halfRepr f.xOffset2))
    ++ arrayLine "s16_t" nm "_y_offsets" (natRepr frames.length)
        (frames.map (fun f => halfRepr f.yOffset2))
    ++ arrayLine "u16_t" nm "_durations" (natRepr frames.length)
        (frames.map (fun f => natRepr f.duration))
    ++ joinSep "\n" (mapWithIdx (frameRgbaDecl nm) frames)
    ++ "\nstatic const u8_t * " ++ nm ++ "_rgba[" ++ natRepr frames.length ++ "] = \x7b "
    ++ joinSep ", " (mapWithIdx (fun i _ => "&" ++ nm ++ "_rgba_" ++ natRepr i) frames)
    ++ " \x7d;\n\n"
    ++ spriteStructDecl nm frames.length

/-- One tag's index array (lines 420-426):
`` `const u16_t ${tag.name}_indices[${n}] = { ... };` ``. -/
def tagIndicesDecl (t : ResolvedTag) : String :=
  "const u16_t " ++ t.name ++ "_indices[" ++ natRepr t.indices.length
    ++ "] = \x7b " ++ joinSep ", " (t.indices.map natRepr) ++ " \x7d;"

/-- One tag's `sprite_animation_t` instance (lines 428-437). -/
def tagStructDecl (nm : String) (t : ResolvedTag) : String :=
  "const sprite_animation_t " ++ t.name ++ " = \x7b" ++ "\n  &" ++ nm ++ ",\n  &" ++ t.name
    ++ "_indices,\n  " ++ natRepr t.indices.length ++ ",\n  " ++ natRepr t.duration
    ++ "\n\x7d;"

/-- The source template (lines 378-438).  Its single `#include` names
`` `${basename(asepriteFile)}.h` `` (line 378). -/
def sourceText (asepriteFile nm : String) (frames : List DerivedFrame)
    (tags : List ResolvedTag) : String :=
  "#include \"" ++ baseName asepriteFile ++ ".h\"\n" ++ "\n"
    ++ sourceFrameArrays nm frames
    ++ joinSep "\n" (tags.map tagIndicesDecl)
    ++ "\n\n"
    ++ joinSep "\n\n" (tags.map (tagStructDecl nm))
    ++ "\n"

/-- Occurrences of the `#` character in a string: the source template
produces it only through its `#include` directive, so counting it
counts include directives. -/
def hashCount (s : String) : Nat := s.data.count ('#')

/-- All the tag names of a resolved tag list avoid the `#` character. -/
def tagsHashFree (tags : List ResolvedTag) : Bool :=
  tags.all (fun t => hashCount t.name == 0)

/-! ## Identifier normalization

Modelled from the spec: the implementation file of
`convertFileNameToIdentifier` is not part of the repository snapshot
(only its unit tests under `src/convert-file-name-to-identifier/` are),
so the definitions below follow the algorithm of spec section 4.1
word for word, and the unit-test scenarios are reproved below to pin
the model to the tested behavior. -/

/-- A separator character: whitespace, underscore or hyphen
(spec 4.1 step 1). -/
def isSepChar (c : Char) : Bool :=
  c.toNat == 32 || c.toNat == 9 || c.toNat == 10 || c.toNat == 13
    || c.toNat == 95 || c.toNat == 45

/-- An ASCII uppercase letter. -/
def isUpperAlpha (c : Char) : Bool := 65 ≤ c.toNat && c.toNat ≤ 90

/-- An ASCII lowercase letter. -/
def isLowerAlpha (c : Char) : Bool := 97 ≤ c.toNat && c.toNat ≤ 122

/-- ASCII lowercasing of a character (spec 4.1 step 3). -/
def toLowerCh (c : Char) : Char :=
  if 65 ≤ c.toNat ∧ c.toNat ≤ 90 then Char.ofNat (c.toNat + 32) else c

/-- The maximal runs of non-separator characters, in order: separators
are trimmed and collapsed away entirely (spec 4.1 step 1). -/
def chunksL : List Char → List (List Char)
  | [] => []
  | c :: rest =>
    if isSepChar c then chunksL rest
    else
      match rest, chunksL rest with
      | [], _ => [[c]]
      | d :: _, r =>
        if isSepChar d then [c] :: r
        else
          match r with
          | [] => [[c]]
          | w :: ws => (c :: w) :: ws

/-- Does the rest of the chunk start with a lowercase letter? -/
def nextIsLower : List Char → Bool
  | d :: _ => isLowerAlpha d
  | [] => false

/-- The casing boundary of spec 4.1 step 2, tested immediately before
`c` when `prev` precedes it and `rest` follows it: an uppercase letter
preceded by a lowercase letter (camelCase boundary), or an uppercase
letter preceded by an uppercase letter and followed by a lowercase
letter (acronym-to-word boundary). -/
def casingBoundary (prev c : Char) (rest : List Char) : Bool :=
  isUpperAlpha c && (isLowerAlpha prev || (isUpperAlpha prev && nextIsLower rest))

/-- The left-to-right scan splitting one chunk at casing boundaries:
`acc` is the current word reversed, `prev` the previous character. -/
def splitCasingGo (acc : List Char) (prev : Char) : List Char → List (List Char)
  | [] => [acc.reverse]
  | c :: rest =>
    if casingBoundary prev c rest then acc.reverse :: splitCasingGo [c] c rest
    else splitCasingGo (c :: acc) c rest

/-- Split one separator-free chunk into sub-words at casing transitions
(spec 4.1 step 2). -/
def splitCasing : List Char → List (List Char)
  | [] => []
  | c :: rest => splitCasingGo [c] c rest

/-- Join words with single underscores (spec 4.1 step 3). -/
def joinL : List (List Char) → List Char
  | [] => []
  | [w] => w
  | w :: v :: ws => w ++ '_' :: joinL (v :: ws)

/-- Modelled from the spec: the Identifier Normalizer
(`convertFileNameToIdentifier`) of spec section 4.1 — split on
separators, split chunks at casing transitions, lowercase every word,
join with single underscores. -/
def convertFileNameToIdentifier (s : String) : String :=
  String.mk (joinL (((chunksL s.data).map splitCasing).flatten.map (List.map toLowerCh)))

/-- A character of a normalized identifier's word: a lowercase ASCII
letter or a digit (`[a-z0-9]`). -/
def isWordCharB (c : Char) : Bool :=
  (97 ≤ c.toNat && c.toNat ≤ 122) || (48 ≤ c.toNat && c.toNat ≤ 57)

/-- `ws` is the word list of a normalized identifier: every word is
nonempty and made of `[a-z0-9]` characters. -/
def normWordsB (ws : List (List Char)) : Bool :=
  ws.all (fun w => !w.isEmpty && w.all isWordCharB)

theorem wordChar_not_sep (c : Char) (h : isWordCharB c = true) : isSepChar c = false := by
  simp only [isWordCharB, Bool.or_eq_true, Bool.and_eq_true, decide_eq_true_eq] at h
  simp only [isSepChar, Bool.or_eq_false_iff, beq_eq_false_iff_ne, ne_eq]
  omega

theorem wordChar_not_upper (c : Char) (h : isWordCharB c = true) :
    isUpperAlpha c = false := by
  simp only [isWordCharB, Bool.or_eq_true, Bool.and_eq_true, decide_eq_true_eq] at h
  simp only [isUpperAlpha, Bool.and_eq_false_iff, decide_eq_false_iff_not, not_le]
  omega

theorem toLowerCh_wordChar (c : Char) (h : isWordCharB c = true) : toLowerCh c = c := by
  simp only [isWordCharB, Bool.or_eq_true, Bool.and_eq_true, decide_eq_true_eq] at h
  rw [toLowerCh, if_neg (by omega)]

theorem chunksL_sep (c : Char) (l : List Char) (h : isSepChar c = true) :
    chunksL (c :: l) = chunksL l := by
  simp [chunksL, h]

theorem chunksL_word (w t : List Char) (hw : w ≠ [])
    (hchars : ∀ c ∈ w, isSepChar c = false)
    (ht : t = [] ∨ ∃ d t2, t = d :: t2 ∧ isSepChar d = true) :
    chunksL (w ++ t) = w :: chunksL t := by
  induction w with
  | nil => exact absurd rfl hw
  | cons c w2 ih =>
    have hc : isSepChar c = false := hchars c (List.mem_cons_self c w2)
    cases w2 with
    | nil =>
      rcases ht with rfl | ⟨d, t2, rfl, hd⟩
      · simp [chunksL, hc]
      · simp [chunksL, hc, hd]
    | cons e w3 =>
      have he : isSepChar e = false := hchars e (by simp)
      have ih2 : chunksL (e :: w3 ++ t) = (e :: w3) :: chunksL t :=
        ih (by simp) (fun x hx => hchars x (List.mem_cons_of_mem c hx))
      simp only [List.cons_append] at ih2 ⊢
      rw [chunksL]
      simp [hc, he, ih2]

theorem chunksL_joinL (ws : List (List Char))
    (h : ∀ w ∈ ws, w ≠ [] ∧ ∀ c ∈ w, isSepChar c = false) :
    chunksL (joinL ws) = ws := by
  induction ws with
  | nil => rfl
  | cons w tail ih =>
    obtain ⟨hw, hwc⟩ := h w (List.mem_cons_self w tail)
    cases tail with
    | nil =>
      have := chunksL_word w [] hw hwc (Or.inl rfl)
      simpa [joinL] using this
    | cons v ws2 =>
      have hsep : isSepChar ('_') = true := by decide
      have step := chunksL_word w ('_' :: joinL (v :: ws2)) hw hwc
        (Or.inr ⟨'_', joinL (v :: ws2), rfl, hsep⟩)
      have tailEq := ih (fun x hx => h x (List.mem_cons_of_mem w hx))
      calc chunksL (joinL (w :: v :: ws2))
          = chunksL (w ++ '_' :: joinL (v :: ws2)) := rfl
        _ = w :: chunksL ('_' :: joinL (v :: ws2)) := step
        _ = w :: chunksL (joinL (v :: ws2)) := by rw [chunksL_sep _ _ hsep]
        _ = w :: v :: ws2 := by rw [tailEq]

theorem splitCasingGo_noUpper (l acc : List Char) (prev : Char)
    (h : ∀ c ∈ l, isUpperAlpha c = false) :
    splitCasingGo acc prev l = [acc.reverse ++ l] := by
  induction l generalizing acc prev with
  | nil => simp [splitCasingGo]
  | cons c rest ih =>
    have hc : isUpperAlpha c = false := h c (List.mem_cons_self c rest)
    have hb : casingBoundary prev c rest = false := by
      simp [casingBoundary, hc]
    rw [splitCasingGo, hb]
    simp only [Bool.false_eq_true, if_false]
    rw [ih (c :: acc) c (fun x hx => h x (List.mem_cons_of_mem c hx))]
    simp

theorem splitCasing_noUpper (w : List Char) (hw : w ≠ [])
    (h : ∀ c ∈ w, isUpperAlpha c = false) :
    splitCasing w = [w] := by
  cases w with
  | nil => exact absurd rfl hw
  | cons c rest =>
    rw [splitCasing, splitCasingGo_noUpper rest [c] c
      (fun x hx => h x (List.mem_cons_of_mem c hx))]
    rfl

theorem flatten_map_singleton (ws : List (List Char))
    (h : ∀ w ∈ ws, splitCasing w = [w]) :
    (ws.map splitCasing).flatten = ws := by
  induction ws with
  | nil => rfl
  | cons w tail ih =>
    simp only [List.map_cons, List.flatten_cons, h w (List.mem_cons_self w tail)]
    rw [ih (fun x hx => h x (List.mem_cons_of_mem w hx))]
    rfl

theorem map_toLowerCh_id (w : List Char) (h : ∀ c ∈ w, isWordCharB c = true) :
    w.map toLowerCh = w := by
  induction w with
  | nil => rfl
  | cons c rest ih =>
    simp only [List.map_cons, toLowerCh_wordChar c (h c (List.mem_cons_self c rest)),
      ih (fun x hx => h x (List.mem_cons_of_mem c hx))]

theorem normWordsB_spread (ws : List (List Char)) (h : normWordsB ws = true) :
    ∀ w ∈ ws, w ≠ [] ∧ ∀ c ∈ w, isWordCharB c = true := by
  intro w hw
  rw [normWordsB, List.all_eq_true] at h
  have := h w hw
  simp only [Bool.and_eq_true, Bool.not_eq_true', List.all_eq_true] at this
  exact ⟨by simpa [List.isEmpty_iff] using this.1, this.2⟩

/-- C10: the Identifier Normalizer is idempotent — a string that is
already a normalized identifier (nonempty `[a-z0-9]` words joined by
single underscores, no leading/trailing/duplicate underscores, here
presented through its word list) is returned unchanged by
`convertFileNameToIdentifier`. -/
theorem normalizer_idempotent (ws : List (List Char)) (h : normWordsB ws = true) :
    convertFileNameToIdentifier (String.mk (joinL ws)) = String.mk (joinL ws) := by
  have hws := normWordsB_spread ws h
  have hchunks : chunksL (joinL ws) = ws :=
    chunksL_joinL ws (fun w hw =>
      ⟨(hws w hw).1, fun c hc => wordChar_not_sep c ((hws w hw).2 c hc)⟩)
  have hsplit : ∀ w ∈ ws, splitCasing w = [w] := fun w hw =>
    splitCasing_noUpper w (hws w hw).1
      (fun c hc => wordChar_not_upper c ((hws w hw).2 c hc))
  have hlower : ∀ w ∈ ws, w.map toLowerCh = w := fun w hw =>
    map_toLowerCh_id w (hws w hw).2
  rw [convertFileNameToIdentifier]
  show String.mk (joinL (((chunksL (joinL ws)).map splitCasing).flatten.map
    (List.map toLowerCh))) = String.mk (joinL ws)
  rw [hchunks, flatten_map_singleton ws hsplit, List.map_congr_left hlower]
  simp

/-- Witness for `normalizer_idempotent` at the concrete normalized
identifier `walk_cycle_2`. -/
theorem normalizer_idempotent_witness :
    normWordsB [['w', 'a', 'l', 'k'], ['c', 'y', 'c', 'l', 'e'], ['2']] = true
      ∧ convertFileNameToIdentifier "walk_cycle_2" = "walk_cycle_2" :=
  ⟨rfl, normalizer_idempotent [['w', 'a', 'l', 'k'], ['c', 'y', 'c', 'l', 'e'], ['2']] rfl⟩

/-- The spec-modelled normalizer reproduces every scenario of the
repository's unit tests (`src/convert-file-name-to-identifier/unit.ts`). -/
theorem convertFileNameToIdentifier_unit_scenarios :
    convertFileNameToIdentifier "test" = "test"
      ∧ convertFileNameToIdentifier "Test" = "test"
      ∧ convertFileNameToIdentifier
          "  \n \r \t  Test String  \n \t \r With TXT White Space \t \t \r \n   "
          = "test_string_with_txt_white_space"
      ∧ convertFileNameToIdentifier "test_snake_cased_string" = "test_snake_cased_string"
      ∧ convertFileNameToIdentifier "test-kebab-cased-string" = "test_kebab_cased_string"
      ∧ convertFileNameToIdentifier "TEST_SNAKE_CASED_STRING" = "test_snake_cased_string"
      ∧ convertFileNameToIdentifier "TEST-KEBAB-CASED-STRING" = "test_kebab_cased_string"
      ∧ convertFileNameToIdentifier "_test_snake_cased_string" = "test_snake_cased_string"
      ∧ convertFileNameToIdentifier "-test-kebab-cased-string" = "test_kebab_cased_string"
      ∧ convertFileNameToIdentifier "TestPascalCasedTXTString" = "test_pascal_cased_txt_string"
      ∧ convertFileNameToIdentifier "testCamelCasedTXTString" = "test_camel_cased_txt_string"
      ∧ convertFileNameToIdentifier "TestPascalCasedStringTXT" = "test_pascal_cased_string_txt"
      ∧ convertFileNameToIdentifier "testCamelCasedStringTXT" = "test_camel_cased_string_txt"
      ∧ convertFileNameToIdentifier "TXTTestPascalCasedString" = "txt_test_pascal_cased_string"
      ∧ convertFileNameToIdentifier "TestPascalCasedTXString" = "test_pascal_cased_tx_string"
      ∧ convertFileNameToIdentifier "testCamelCasedTXString" = "test_camel_cased_tx_string"
      ∧ convertFileNameToIdentifier "TestPascalCasedStringTX" = "test_pascal_cased_string_tx"
      ∧ convertFileNameToIdentifier "testCamelCasedStringTX" = "test_camel_cased_string_tx"
      ∧ convertFileNameToIdentifier "TXTestPascalCasedString" = "tx_test_pascal_cased_string"
      ∧ convertFileNameToIdentifier "TestPascalCasedTString" = "test_pascal_cased_t_string"
      ∧ convertFileNameToIdentifier "testCamelCasedTString" = "test_camel_cased_t_string"
      ∧ convertFileNameToIdentifier "TestPascalCasedStringT" = "test_pascal_cased_string_t"
      ∧ convertFileNameToIdentifier "testCamelCasedStringT" = "test_camel_cased_string_t"
      ∧ convertFileNameToIdentifier "TTestPascalCasedString" = "t_test_pascal_cased_string"
      ∧ convertFileNameToIdentifier "TXT" = "txt"
      ∧ convertFileNameToIdentifier "A B C" = "a_b_c" := by
  repeat' constructor

/-! ## Tag expansion properties -/

/-- Consecutive elements increase by exactly one: the shape of an
ascending `from, from+1, ...` run. -/
def stepAscending (l : List Nat) : Prop := List.Chain' (fun x y => y = x + 1) l

theorem stepAscending_range' (s n : Nat) : stepAscending (List.range' s n) := by
  induction n generalizing s with
  | zero => simp [stepAscending]
  | succ k ih =>
    rw [stepAscending, List.range'_succ, List.chain'_cons']
    refine ⟨?_, ih (s + 1)⟩
    intro y hy
    rw [List.head?_range'] at hy
    split at hy
    · simp at hy
    · simp at hy
      omega

/-- C3's counterexample: a pingpong tag with `from = to` is accepted by
the Tag Expander yet produces an empty indices sequence, so the length
is 0, not at least 1. -/
theorem pingpong_equal_range_empty_indices :
    (tagIndices ⟨"loop", 0, 0, .pingpong⟩).length = 0 := by rfl

/-- C3 (amended): the indices sequence is empty exactly for a forward
or reverse tag with `to < from` and for a pingpong tag with `to ≤ from`;
every other accepted tag yields length at least 1. -/
theorem tagIndices_empty_characterization (t : RawTag) :
    tagIndices t = [] ↔
      ((t.direction = .forward ∨ t.direction = .reverse) ∧ t.«to» < t.«from»)
        ∨ (t.direction = .pingpong ∧ t.«to» ≤ t.«from») := by
  obtain ⟨nm, a, b, d⟩ := t
  cases d <;> simp [tagIndices] <;> omega

/-- C5's counterexample: for a pingpong tag with `from = to = 3`
(a tag with `from ≤ to`), the expansion is empty, so the end frame is
visited 0 times, not exactly once. -/
theorem pingpong_endpoint_not_visited_once :
    (tagIndices ⟨"cycle", 3, 3, .pingpong⟩).count 3 = 0 := by rfl

/-- C5 (amended): for every tag with `from ≤ to`, forward expands to
`from, from+1, ..., to` inclusive ascending (length, first element,
last element and unit steps pin the sequence), reverse expands to the
reverse of forward, and pingpong is forward without its last element
followed by reverse without its last element; when `from < to` the
pingpong sequence visits the start and end frames exactly once each and
is a permutation of the forward pass plus one extra copy of each
interior frame. -/
theorem tag_expansion_sequences (nm : String) (a b : Nat) (hab : a ≤ b) :
    (tagIndices ⟨nm, a, b, .forward⟩).length = b + 1 - a
      ∧ (tagIndices ⟨nm, a, b, .forward⟩).head? = some a
      ∧ (tagIndices ⟨nm, a, b, .forward⟩).getLast? = some b
      ∧ stepAscending (tagIndices ⟨nm, a, b, .forward⟩)
      ∧ tagIndices ⟨nm, a, b, .reverse⟩ = (tagIndices ⟨nm, a, b, .forward⟩).reverse
      ∧ tagIndices ⟨nm, a, b, .pingpong⟩
          = (tagIndices ⟨nm, a, b, .forward⟩).dropLast
            ++ (tagIndices ⟨nm, a, b, .reverse⟩).dropLast
      ∧ (a < b →
          (tagIndices ⟨nm, a, b, .pingpong⟩).count a = 1
            ∧ (tagIndices ⟨nm, a, b, .pingpong⟩).count b = 1
            ∧ (tagIndices ⟨nm, a, b, .pingpong⟩).Perm
                (tagIndices ⟨nm, a, b, .forward⟩
                  ++ (tagIndices ⟨nm, a, b, .forward⟩).dropLast.drop 1)) := by
  have hn : b + 1 - a = (b - a) + 1 := by omega
  refine ⟨by simp [tagIndices], ?_, ?_, stepAscending_range' a (b + 1 - a), rfl, ?_, ?_⟩
  · rw [show tagIndices ⟨nm, a, b, .forward⟩ = List.range' a (b + 1 - a) from rfl,
      List.head?_range', if_neg (by omega)]
  · rw [show tagIndices ⟨nm, a, b, .forward⟩ = List.range' a (b + 1 - a) from rfl,
      List.getLast?_range', if_neg (by omega)]
    congr 1
    omega
  · show List.range' a (b - a) ++ (List.range' (a + 1) (b - a)).reverse
        = (List.range' a (b + 1 - a)).dropLast ++ ((List.range' a (b + 1 - a)).reverse).dropLast
    rw [hn]
    congr 1
    · rw [List.range'_1_concat, List.dropLast_concat]
    · rw [List.range'_succ]
      simp
  · intro hlt
    obtain ⟨k, rfl⟩ : ∃ k, b = a + (k + 1) := ⟨b - a - 1, by omega⟩
    have e1 : a + (k + 1) - a = k + 1 := by omega
    have e2 : a + (k + 1) + 1 - a = k + 2 := by omega
    have hup : List.range' a (k + 1) = a :: List.range' (a + 1) k := List.range'_succ a k 1
    have hdn : List.range' (a + 1) (k + 1) = List.range' (a + 1) k ++ [a + 1 + k] :=
      List.range'_1_concat (a + 1) k
    refine ⟨?_, ?_, ?_⟩
    · show (List.range' a (a + (k + 1) - a)
          ++ (List.range' (a + 1) (a + (k + 1) - a)).reverse).count a = 1
      rw [e1, List.count_append, List.count_reverse,
        List.count_eq_one_of_mem (List.nodup_range' a (k + 1))
          (by rw [List.mem_range'_1]; omega),
        List.count_eq_zero.mpr (by rw [List.mem_range'_1]; omega)]
    · show (List.range' a (a + (k + 1) - a)
          ++ (List.range' (a + 1) (a + (k + 1) - a)).reverse).count (a + (k + 1)) = 1
      rw [e1, List.count_append, List.count_reverse,
        List.count_eq_zero.mpr (by rw [List.mem_range'_1]; omega),
        List.count_eq_one_of_mem (List.nodup_range' (a + 1) (k + 1))
          (by rw [List.mem_range'_1]; omega)]
    · show (List.range' a (a + (k + 1) - a)
          ++ (List.range' (a + 1) (a + (k + 1) - a)).reverse).Perm
        (List.range' a (a + (k + 1) + 1 - a)
          ++ (List.range' a (a + (k + 1) + 1 - a)).dropLast.drop 1)
      rw [e1, e2]
      have hfwdTop : List.range' a (k + 2) = List.range' a (k + 1) ++ [a + (k + 1)] :=
        List.range'_1_concat a (k + 1)
      have hdrop : (List.range' a (k + 2)).dropLast.drop 1 = List.range' (a + 1) k := by
        rw [hfwdTop, List.dropLast_concat, hup]
        rfl
      rw [hdrop, hfwdTop, hup, hdn]
      have hc : a + 1 + k = a + (k + 1) := by omega
      rw [hc]
      simp only [List.reverse_append, List.reverse_cons, List.reverse_nil,
        List.nil_append, List.singleton_append, List.cons_append, List.append_assoc]
      refine List.Perm.cons a (List.Perm.append_left _ ?_)
      exact List.Perm.cons (a + (k + 1)) (List.reverse_perm _)

/-- Witness for `tag_expansion_sequences` at `from = 2`, `to = 5`,
together with the spec's example expansions evaluated directly. -/
theorem tag_expansion_sequences_witness :
    ((tagIndices ⟨"walk", 2, 5, .forward⟩).length = 5 + 1 - 2
        ∧ (tagIndices ⟨"walk", 2, 5, .forward⟩).head? = some 2
        ∧ (tagIndices ⟨"walk", 2, 5, .forward⟩).getLast? = some 5
        ∧ stepAscending (tagIndices ⟨"walk", 2, 5, .forward⟩)
        ∧ tagIndices ⟨"walk", 2, 5, .reverse⟩ = (tagIndices ⟨"walk", 2, 5, .forward⟩).reverse
        ∧ tagIndices ⟨"walk", 2, 5, .pingpong⟩
            = (tagIndices ⟨"walk", 2, 5, .forward⟩).dropLast
              ++ (tagIndices ⟨"walk", 2, 5, .reverse⟩).dropLast
        ∧ (2 < 5 →
            (tagIndices ⟨"walk", 2, 5, .pingpong⟩).count 2 = 1
              ∧ (tagIndices ⟨"walk", 2, 5, .pingpong⟩).count 5 = 1
              ∧ (tagIndices ⟨"walk", 2, 5, .pingpong⟩).Perm
                  (tagIndices ⟨"walk", 2, 5, .forward⟩
                    ++ (tagIndices ⟨"walk", 2, 5, .forward⟩).dropLast.drop 1)))
      ∧ tagIndices ⟨"walk", 2, 5, .forward⟩ = [2, 3, 4, 5]
      ∧ tagIndices ⟨"walk", 2, 5, .reverse⟩ = [5, 4, 3, 2]
      ∧ tagIndices ⟨"walk", 2, 5, .pingpong⟩ = [2, 3, 4, 5, 4, 3] :=
  ⟨tag_expansion_sequences "walk" 2 5 (by decide), rfl, rfl, rfl⟩

/-- C7: when every index of the expanded sequence is inside the frame
table (so the summation runs to completion with value `total`), a tag
whose summed duration is exactly 65535 resolves successfully, and one
whose summed duration exceeds 65535 fails with the
TagDurationLimitExceeded error carrying the tag's name and the computed
total.  Per-occurrence counting is built into `sumTagDurations`, which
adds the referenced frame's duration once per occurrence of its index. -/
theorem tag_duration_limit_behavior (frames : List DerivedFrame) (t : RawTag) (total : Nat)
    (h : sumTagDurations frames (tagIndices t) = some total) :
    (total = 65535 → resolveTag frames t = .ok ⟨t.name, tagIndices t, total⟩)
      ∧ (65535 < total → resolveTag frames t = .failed (.tagDurationLimit t.name total)) := by
  constructor
  · intro h65
    simp only [resolveTag, h]
    rw [if_neg (by omega)]
  · intro hgt
    simp only [resolveTag, h]
    rw [if_pos hgt]

/-- Witness for `tag_duration_limit_behavior`: a one-frame table whose
frame lasts 65535 ticks resolves a forward tag over it, and a two-frame
table of 32768-tick frames drives a forward tag over both to 65536 and
the TagDurationLimitExceeded failure. -/
theorem tag_duration_limit_behavior_witness :
    resolveTag [⟨1, 1, 0, 0, 65535, []⟩] ⟨"full", 0, 0, .forward⟩
        = .ok ⟨"full", [0], 65535⟩
      ∧ resolveTag [⟨1, 1, 0, 0, 32768, []⟩, ⟨1, 1, 0, 0, 32768, []⟩]
          ⟨"over", 0, 1, .forward⟩
        = .failed (.tagDurationLimit "over" 65536) :=
  ⟨(tag_duration_limit_behavior [⟨1, 1, 0, 0, 65535, []⟩] ⟨"full", 0, 0, .forward⟩
      65535 rfl).1 rfl,
    (tag_duration_limit_behavior [⟨1, 1, 0, 0, 32768, []⟩, ⟨1, 1, 0, 0, 32768, []⟩]
      ⟨"over", 0, 1, .forward⟩ 65536 rfl).2 (by omega)⟩

/-- C9: the Tag Expander never checks `from`/`to` against the frame
table's bounds — for the tag `from = 0, to = 1` over an empty frame
table (`to` is not below the frame count), the duration summation
reaches past the end of the table (`sumTagDurations` yields `none`,
where the JS reads `.duration` of `undefined` and crashes), and the
outcome is not any declared error of the error taxonomy. -/
theorem tag_out_of_range_unchecked :
    sumTagDurations [] (tagIndices ⟨"overflow", 0, 1, .forward⟩) = none
      ∧ resolveTag [] ⟨"overflow", 0, 1, .forward⟩ = .crashed
      ∧ isDeclaredError (resolveTag [] ⟨"overflow", 0, 1, .forward⟩) = false :=
  ⟨rfl, rfl, rfl⟩

/-! ## Frame derivation properties -/

/-- The errors of the spec's GeometryLimitExceeded class: width, height
or offset outside its fixed-width integer encoding. -/
def isGeometryLimitError : ToolError → Bool
  | .frameWidthLimit _ _ => true
  | .frameHeightLimit _ _ => true
  | .frameXOffsetLimit _ _ => true
  | .frameYOffsetLimit _ _ => true
  | _ => false

/-- The width/height size-limit errors alone. -/
def isSizeLimitError : ToolError → Bool
  | .frameWidthLimit _ _ => true
  | .frameHeightLimit _ _ => true
  | _ => false

/-- The 1-based frame number a per-frame error reports. -/
def frameNumberOf : ToolError → Option Nat
  | .frameWidthLimit n _ => some n
  | .frameHeightLimit n _ => some n
  | .frameXOffsetLimit n _ => some n
  | .frameYOffsetLimit n _ => some n
  | .durationIncompatible n _ _ => some n
  | _ => none

/-- Did the derivation fail with a GeometryLimitExceeded error
reporting frame number `n`? -/
def failsGeometryAt (n : Nat) : Except ToolError DerivedFrame → Bool
  | .error e => isGeometryLimitError e && (frameNumberOf e == some n)
  | .ok _ => false

/-- Did the derivation pass the width/height size checks (no
width-limit or height-limit error)? -/
def passesSizeCheck : Except ToolError DerivedFrame → Bool
  | .error e => !isSizeLimitError e
  | .ok _ => true

/-- C8: a frame whose width or height exceeds 65535 fails with a
GeometryLimitExceeded error reporting the 1-based frame number, and a
frame whose width and height are at most 65535 (in particular exactly
65535) passes the size checks. -/
theorem frame_geometry_limit_behavior (i : Nat) (f : RawFrame) (r : Nat) (s : Sheet) :
    (65535 < f.w ∨ 65535 < f.h → failsGeometryAt (i + 1) (deriveFrame i f r s) = true)
      ∧ (f.w ≤ 65535 → f.h ≤ 65535 → passesSizeCheck (deriveFrame i f r s) = true) := by
  constructor
  · intro hwh
    by_cases hw : 65535 < f.w
    · rw [deriveFrame, if_pos hw]
      simp [failsGeometryAt, isGeometryLimitError, frameNumberOf]
    · have hh : 65535 < f.h := hwh.resolve_left hw
      rw [deriveFrame, if_neg hw, if_pos hh]
      simp [failsGeometryAt, isGeometryLimitError, frameNumberOf]
  · intro hw hh
    rw [deriveFrame, if_neg (by omega), if_neg (by omega)]
    by_cases hx1 : 65534 < xOffset2 f
    · rw [if_pos hx1]; rfl
    rw [if_neg hx1]
    by_cases hx2 : xOffset2 f < -65536
    · rw [if_pos hx2]; rfl
    rw [if_neg hx2]
    by_cases hy1 : 65534 < yOffset2 f
    · rw [if_pos hy1]; rfl
    rw [if_neg hy1]
    by_cases hy2 : yOffset2 f < -65536
    · rw [if_pos hy2]; rfl
    rw [if_neg hy2]
    by_cases hm : (f.duration * r) % 1000 ≠ 0
    · rw [if_pos hm]; rfl
    · rw [if_neg hm]; rfl

/-- Witness for `frame_geometry_limit_behavior`: width 65536 fails with
the geometry error for frame 1; width and height exactly 65535 pass the
size checks. -/
theorem frame_geometry_limit_behavior_witness :
    failsGeometryAt 1 (deriveFrame 0 ⟨0, 0, 65536, 1, 0, 0, 2, 2, 1000⟩ 1 ⟨0, []⟩) = true
      ∧ passesSizeCheck (deriveFrame 0 ⟨0, 0, 65535, 65535, 0, 0, 2, 2, 1000⟩ 1 ⟨0, []⟩)
        = true :=
  ⟨(frame_geometry_limit_behavior 0 ⟨0, 0, 65536, 1, 0, 0, 2, 2, 1000⟩ 1 ⟨0, []⟩).1
      (Or.inl (by decide)),
    (frame_geometry_limit_behavior 0 ⟨0, 0, 65535, 65535, 0, 0, 2, 2, 1000⟩ 1 ⟨0, []⟩).2
      (by decide) (by decide)⟩

/-- C6: for a frame that passes the geometry checks and a refresh rate
of at least 1, derivation fails with DurationIncompatible (reporting
the 1-based frame number, the duration and the refresh rate) exactly
when `duration * refreshRate` is not a multiple of 1000; otherwise it
produces `durationTicks = duration * refreshRate / 1000`, and
re-deriving the milliseconds as `durationTicks * 1000 / refreshRate`
reproduces the original duration exactly. -/
theorem duration_quantization_correct (i : Nat) (f : RawFrame) (r : Nat) (s : Sheet)
    (hw : f.w ≤ 65535) (hh : f.h ≤ 65535)
    (hx1 : xOffset2 f ≤ 65534) (hx2 : -65536 ≤ xOffset2 f)
    (hy1 : yOffset2 f ≤ 65534) (hy2 : -65536 ≤ yOffset2 f)
    (hr : 1 ≤ r) :
    (deriveFrame i f r s = .error (.durationIncompatible (i + 1) f.duration r)
        ↔ (f.duration * r) % 1000 ≠ 0)
      ∧ ((f.duration * r) % 1000 = 0 →
          okDuration (deriveFrame i f r s) = some (f.duration * r / 1000)
            ∧ f.duration * r / 1000 * 1000 / r = f.duration) := by
  have hd : deriveFrame i f r s
      = if (f.duration * r) % 1000 ≠ 0 then
          .error (.durationIncompatible (i + 1) f.duration r)
        else
          .ok { width := f.w, height := f.h,
                xOffset2 := xOffset2 f, yOffset2 := yOffset2 f,
                duration := f.duration * r / 1000,
                rgba := s.data } := by
    rw [deriveFrame, if_neg (by omega), if_neg (by omega), if_neg (by omega),
      if_neg (by omega), if_neg (by omega), if_neg (by omega)]
  constructor
  · rw [hd]
    constructor
    · intro he
      by_cases hm : (f.duration * r) % 1000 = 0
      · rw [if_neg (by simp [hm])] at he
        exact absurd he (by simp)
      · exact hm
    · intro hm
      rw [if_pos hm]
  · intro hm
    rw [hd, if_neg (by simp [hm])]
    refine ⟨rfl, ?_⟩
    have hdvd : 1000 ∣ f.duration * r := Nat.dvd_of_mod_eq_zero hm
    rw [Nat.div_mul_cancel hdvd, Nat.mul_div_cancel _ (by omega)]

/-- Witness for `duration_quantization_correct`: 51 ms at 60 Hz (the
repository's own failing fixture) is incompatible; 1000 ms at 60 Hz
quantizes to 60 ticks and round-trips to 1000 ms. -/
theorem duration_quantization_correct_witness :
    deriveFrame 0 ⟨0, 0, 1, 1, 0, 0, 2, 2, 51⟩ 60 ⟨0, []⟩
        = .error (.durationIncompatible 1 51 60)
      ∧ okDuration (deriveFrame 0 ⟨0, 0, 1, 1, 0, 0, 2, 2, 1000⟩ 60 ⟨0, []⟩) = some 60
      ∧ 60 * 1000 / 60 = 1000 := by
  refine ⟨?_, ?_⟩
  · exact (duration_quantization_correct 0 ⟨0, 0, 1, 1, 0, 0, 2, 2, 51⟩ 60 ⟨0, []⟩
      (by decide) (by decide) (by decide) (by decide) (by decide) (by decide)
      (by decide)).1.mpr (by decide)
  · exact (duration_quantization_correct 0 ⟨0, 0, 1, 1, 0, 0, 2, 2, 1000⟩ 60 ⟨0, []⟩
      (by decide) (by decide) (by decide) (by decide) (by decide) (by decide)
      (by decide)).2 (by decide)

/-- C1: the Frame Deriver's `rgba` output is not the spec's `pixels`
byte sequence.  At a 1×1 frame inside a 2×1 sheet, the code returns the
whole 8-byte sheet raster unmodified (mirroring `rgba: png.data`),
while the spec's description yields the 4-byte premultiplied
frame-local buffer `[3, 7, 11, 155]` of length `width × height × 4`. -/
theorem frameDeriver_rgba_discrepancy :
    okRgba (deriveFrame 0 ⟨0, 0, 1, 1, 0, 0, 2, 2, 1000⟩ 1
        ⟨2, [10, 20, 30, 100, 50, 60, 70, 200]⟩)
      = some [10, 20, 30, 100, 50, 60, 70, 200]
      ∧ specFramePixels ⟨0, 0, 1, 1, 0, 0, 2, 2, 1000⟩ ⟨2, [10, 20, 30, 100, 50, 60, 70, 200]⟩
        = [3, 7, 11, 155]
      ∧ (specFramePixels ⟨0, 0, 1, 1, 0, 0, 2, 2, 1000⟩
          ⟨2, [10, 20, 30, 100, 50, 60, 70, 200]⟩).length = 1 * 1 * 4
      ∧ okRgba (deriveFrame 0 ⟨0, 0, 1, 1, 0, 0, 2, 2, 1000⟩ 1
          ⟨2, [10, 20, 30, 100, 50, 60, 70, 200]⟩)
        ≠ some (specFramePixels ⟨0, 0, 1, 1, 0, 0, 2, 2, 1000⟩
          ⟨2, [10, 20, 30, 100, 50, 60, 70, 200]⟩) := by
  refine ⟨by decide, by decide, by decide, by decide⟩

/-! ## Code emission properties -/

theorem joinSep_mem_parts (sep x : String) (L : List String) (h : x ∈ L) :
    ∃ l r, (joinSep sep L).data = l ++ x.data ++ r := by
  induction L with
  | nil => cases h
  | cons y ys ih =>
    cases ys with
    | nil =>
      rcases List.mem_cons.mp h with rfl | h2
      · exact ⟨[], [], by simp [joinSep]⟩
      · cases h2
    | cons z zs =>
      rcases List.mem_cons.mp h with rfl | h2
      · refine ⟨[], (sep ++ joinSep sep (z :: zs)).data, ?_⟩
        simp [joinSep, String.data_append]
      · obtain ⟨l, r, hr⟩ := ih h2
        refine ⟨y.data ++ sep.data ++ l, r, ?_⟩
        simp [joinSep, String.data_append, hr]

theorem containsB_stringParts (big pre mid post pat : String) (l r : List Char)
    (hbig : big = pre ++ mid ++ post) (hmid : mid.data = l ++ pat.data ++ r) :
    containsB big.data pat.data = true := by
  apply containsB_of_parts big.data pat.data (pre.data ++ l) (r ++ post.data)
  subst hbig
  simp [String.data_append, hmid, List.append_assoc]

/-- C2's counterexample: for the tag named `Walk Cycle`, whose
normalized form is `walk_cycle`, the emitted header does not contain a
declaration using the normalized symbol — the emitter never invokes the
Identifier Normalizer on tag names. -/
theorem header_normalized_tag_decl_missing :
    convertFileNameToIdentifier "Walk Cycle" = "walk_cycle"
      ∧ containsB (headerText "n.h" "s.h" "spr" [⟨"Walk Cycle", [0], 1⟩]).data
          ("extern const sprite_animation_t "
            ++ convertFileNameToIdentifier "Walk Cycle" ++ ";").data = false := by
  exact ⟨rfl, by decide⟩

/-- C2 (amended): during emission every tag's symbol in the generated
header and source is the tag's raw name, not its normalized form — each
tag of the emitted header carries the declaration
`extern const sprite_animation_t <raw name>;` and the emitted source
carries `const sprite_animation_t <raw name> = {`.  (The Identifier
Normalizer is applied only to the sprite's own name, upstream of the
emitter.) -/
theorem emitted_tag_symbols_are_raw_names (inc1 inc2 nm af : String)
    (frames : List DerivedFrame) (tags : List ResolvedTag) (t : ResolvedTag)
    (h : t ∈ tags) :
    containsB (headerText inc1 inc2 nm tags).data
        ("extern const sprite_animation_t " ++ t.name ++ ";").data = true
      ∧ containsB (sourceText af nm frames tags).data
        ("const sprite_animation_t " ++ t.name ++ " = \x7b").data = true := by
  constructor
  · obtain ⟨l, r, hJ⟩ := joinSep_mem_parts "\n" (tagHeaderDecl t) (tags.map tagHeaderDecl)
      (List.mem_map_of_mem tagHeaderDecl h)
    exact containsB_stringParts _
      ("#pragma once\n\n#include \"" ++ inc1 ++ "\"\n#include \"" ++ inc2
        ++ "\"\n\nextern const sprite_t " ++ nm ++ ";\n\n")
      (joinSep "\n" (tags.map tagHeaderDecl)) "\n"
      ("extern const sprite_animation_t " ++ t.name ++ ";") l r rfl hJ
  · obtain ⟨l, r, hJ⟩ := joinSep_mem_parts "\n\n" (tagStructDecl nm t)
      (tags.map (tagStructDecl nm)) (List.mem_map_of_mem (tagStructDecl nm) h)
    have hdecl : (tagStructDecl nm t).data
        = ("const sprite_animation_t " ++ t.name ++ " = \x7b").data
          ++ ("\n  &" ++ nm ++ ",\n  &" ++ t.name ++ "_indices,\n  "
              ++ natRepr t.indices.length ++ ",\n  " ++ natRepr t.duration
              ++ "\n\x7d;").data := by
      simp [tagStructDecl, String.data_append, List.append_assoc]
    refine containsB_stringParts _
      ("#include \"" ++ baseName af ++ ".h\"\n" ++ "\n" ++ sourceFrameArrays nm frames
        ++ joinSep "\n" (tags.map tagIndicesDecl) ++ "\n\n")
      (joinSep "\n\n" (tags.map (tagStructDecl nm))) "\n"
      ("const sprite_animation_t " ++ t.name ++ " = \x7b")
      l (("\n  &" ++ nm ++ ",\n  &" ++ t.name ++ "_indices,\n  "
          ++ natRepr t.indices.length ++ ",\n  " ++ natRepr t.duration
          ++ "\n\x7d;").data ++ r) rfl ?_
    rw [hJ, hdecl]
    simp [List.append_assoc]

/-- Witness for `emitted_tag_symbols_are_raw_names` at a concrete tag
named `Walk Cycle` over an empty frame table. -/
theorem emitted_tag_symbols_are_raw_names_witness :
    containsB (headerText "n.h" "s.h" "spr" [⟨"Walk Cycle", [0], 1⟩]).data
        ("extern const sprite_animation_t " ++ "Walk Cycle" ++ ";").data = true
      ∧ containsB (sourceText "a.ase" "spr" [] [⟨"Walk Cycle", [0], 1⟩]).data
        ("const sprite_animation_t " ++ "Walk Cycle" ++ " = \x7b").data = true :=
  emitted_tag_symbols_are_raw_names "n.h" "s.h" "spr" "a.ase" [] [⟨"Walk Cycle", [0], 1⟩]
    ⟨"Walk Cycle", [0], 1⟩ (List.mem_singleton.mpr rfl)

theorem hashCount_append (a b : String) : hashCount (a ++ b) = hashCount a + hashCount b := by
  simp [hashCount, String.data_append, List.count_append]

theorem hashCount_joinSep (sep : String) (L : List String) (hsep : hashCount sep = 0)
    (h : ∀ x ∈ L, hashCount x = 0) : hashCount (joinSep sep L) = 0 := by
  induction L with
  | nil => rfl
  | cons y ys ih =>
    cases ys with
    | nil => simpa [joinSep] using h y (by simp)
    | cons z zs =>
      rw [show joinSep sep (y :: z :: zs) = y ++ sep ++ joinSep sep (z :: zs) from rfl,
        hashCount_append, hashCount_append, hsep, h y (by simp),
        ih (fun x hx => h x (List.mem_cons_of_mem y hx))]

theorem digitCh_ne_hash (n : Nat) : digitCh n ≠ '#' := by
  unfold digitCh
  split <;> decide

theorem hexDigitCh_ne_hash (n : Nat) : hexDigitCh n ≠ '#' := by
  unfold hexDigitCh
  split <;> decide

theorem natToDigitsFuel_hashFree (f n : Nat) : (natToDigitsFuel f n).count ('#') = 0 := by
  induction f generalizing n with
  | zero => rfl
  | succ f ih =>
    rw [natToDigitsFuel]
    split
    · simp [List.count_cons, Ne.symm (digitCh_ne_hash n)]
    · rw [List.count_append, ih]
      simp [List.count_cons, Ne.symm (digitCh_ne_hash _)]

theorem natToHexDigitsFuel_hashFree (f n : Nat) :
    (natToHexDigitsFuel f n).count ('#') = 0 := by
  induction f generalizing n with
  | zero => rfl
  | succ f ih =>
    rw [natToHexDigitsFuel]
    split
    · simp [List.count_cons, Ne.symm (hexDigitCh_ne_hash n)]
    · rw [List.count_append, ih]
      simp [List.count_cons, Ne.symm (hexDigitCh_ne_hash _)]

theorem hashCount_natRepr (n : Nat) : hashCount (natRepr n) = 0 :=
  natToDigitsFuel_hashFree (n + 1) n

theorem hashCount_natHex (n : Nat) : hashCount (natHex n) = 0 :=
  natToHexDigitsFuel_hashFree (n + 1) n

theorem hashCount_intRepr (i : Int) : hashCount (intRepr i) = 0 := by
  rw [intRepr, hashCount_append]
  rw [hashCount_natRepr]
  split <;> rfl

theorem hashCount_halfRepr (x2 : Int) : hashCount (halfRepr x2) = 0 := by
  rw [halfRepr]
  split
  · exact hashCount_intRepr _
  · rw [hashCount_append, hashCount_append, hashCount_natRepr]
    split <;> rfl

theorem mem_mapWithIdx {α β : Type _} (f : Nat → α → β) (l : List α) (y : β)
    (h : y ∈ mapWithIdx f l) : ∃ i a, y = f i a := by
  have key : ∀ (l2 : List α) (start : Nat),
      y ∈ mapWithIdx.go f start l2 → ∃ i a, y = f i a := by
    intro l2
    induction l2 with
    | nil => intro start hmem; cases hmem
    | cons a as ih =>
      intro start hmem
      rcases List.mem_cons.mp hmem with rfl | h2
      · exact ⟨start, a, rfl⟩
      · exact ih (start + 1) h2
  exact key l 0 h

theorem hashCount_arrayLine (cty nm sfx lenStr : String) (cells : List String)
    (hc : hashCount cty = 0) (hn : hashCount nm = 0) (hs : hashCount sfx = 0)
    (hl : hashCount lenStr = 0) (hcells : ∀ x ∈ cells, hashCount x = 0) :
    hashCount (arrayLine cty nm sfx lenStr cells) = 0 := by
  simp only [arrayLine, hashCount_append, hc, hn, hs, hl,
    hashCount_joinSep ", " cells (by decide) hcells]
  decide

theorem hashCount_frameRgbaDecl (nm : String) (hn : hashCount nm = 0) (i : Nat)
    (f : DerivedFrame) : hashCount (frameRgbaDecl nm i f) = 0 := by
  have hcells : ∀ x ∈ f.rgba.map (fun b => "0x" ++ natHex b), hashCount x = 0 := by
    intro x hx
    obtain ⟨b, _, rfl⟩ := List.mem_map.mp hx
    simp only [hashCount_append, hashCount_natHex]
    decide
  simp only [frameRgbaDecl, hashCount_append, hn, hashCount_natRepr,
    hashCount_joinSep ", " _ (by decide) hcells]
  decide

theorem hashCount_spriteStructDecl (nm : String) (hn : hashCount nm = 0) (c : Nat) :
    hashCount (spriteStructDecl nm c) = 0 := by
  simp only [spriteStructDecl, hashCount_append, hn, hashCount_natRepr]
  decide

theorem hashCount_sourceFrameArrays (nm : String) (hn : hashCount nm = 0)
    (frames : List DerivedFrame) : hashCount (sourceFrameArrays nm frames) = 0 := by
  have hW := hashCount_arrayLine "u16_t" nm "_widths" (natRepr frames.length)
    (frames.map (fun f => natRepr f.width)) (by decide) hn (by decide)
    (hashCount_natRepr _) (fun x hx => by
      obtain ⟨f, _, rfl⟩ := List.mem_map.mp hx; exact hashCount_natRepr _)
  have hH := hashCount_arrayLine "u16_t" nm "_heights" (natRepr frames.length)
    (frames.map (fun f => natRepr f.height)) (by decide) hn (by decide)
    (hashCount_natRepr _) (fun x hx => by
      obtain ⟨f, _, rfl⟩ := List.mem_map.mp hx; exact hashCount_natRepr _)
  have hX := hashCount_arrayLine "s16_t" nm "_x_offsets" (natRepr frames.length)
    (frames.map (fun f => halfRepr f.xOffset2)) (by decide) hn (by decide)
    (hashCount_natRepr _) (fun x hx => by
      obtain ⟨f, _, rfl⟩ := List.mem_map.mp hx; exact hashCount_halfRepr _)
  have hY := hashCount_arrayLine "s16_t" nm "_y_offsets" (natRepr frames.length)
    (frames.map (fun f => halfRepr f.yOffset2)) (by decide) hn (by decide)
    (hashCount_natRepr _) (fun x hx => by
      obtain ⟨f, _, rfl⟩ := List.mem_map.mp hx; exact hashCount_halfRepr _)
  have hD := hashCount_arrayLine "u16_t" nm "_durations" (natRepr frames.length)
    (frames.map (fun f => natRepr f.duration)) (by decide) hn (by decide)
    (hashCount_natRepr _) (fun x hx => by
      obtain ⟨f, _, rfl⟩ := List.mem_map.mp hx; exact hashCount_natRepr _)
  have hrgba : hashCount (joinSep "\n" (mapWithIdx (frameRgbaDecl nm) frames)) = 0 :=
    hashCount_joinSep _ _ (by decide) (fun x hx => by
      obtain ⟨i, f, rfl⟩ := mem_mapWithIdx _ _ _ hx
      exact hashCount_frameRgbaDecl nm hn i f)
  have hptr : hashCount (joinSep ", "
      (mapWithIdx (fun i _ => "&" ++ nm ++ "_rgba_" ++ natRepr i) frames)) = 0 :=
    hashCount_joinSep _ _ (by decide) (fun x hx => by
      obtain ⟨i, f, rfl⟩ := mem_mapWithIdx _ _ _ hx
      simp only [hashCount_append, hn, hashCount_natRepr]
      decide)
  simp only [sourceFrameArrays, hashCount_append, hW, hH, hX, hY, hD, hrgba, hptr, hn,
    hashCount_natRepr, hashCount_spriteStructDecl nm hn]
  decide

theorem hashCount_tagIndicesDecl (t : ResolvedTag) (hn : hashCount t.name = 0) :
    hashCount (tagIndicesDecl t) = 0 := by
  have hcells : ∀ x ∈ t.indices.map natRepr, hashCount x = 0 := fun x hx => by
    obtain ⟨i, _, rfl⟩ := List.mem_map.mp hx
    exact hashCount_natRepr _
  simp only [tagIndicesDecl, hashCount_append, hn, hashCount_natRepr,
    hashCount_joinSep ", " _ (by decide) hcells]
  decide

theorem hashCount_tagStructDecl (nm : String) (hn : hashCount nm = 0) (t : ResolvedTag)
    (ht : hashCount t.name = 0) : hashCount (tagStructDecl nm t) = 0 := by
  simp only [tagStructDecl, hashCount_append, hn, ht, hashCount_natRepr]
  decide

set_option maxRecDepth 4000 in
/-- C4's counterexample: with the aseprite file at `a/sprite.ase` and
the output base `b/out`, the produced header is written at `b/out.h`,
yet the emitted source's include directive names neither that path nor
its file name — the code writes
`` #include "${basename(asepriteFile)}.h" ``, here `sprite.ase.h`. -/
theorem source_include_not_output_header :
    headerFilePath "b/out" = "b/out.h"
      ∧ containsB (sourceText "a/sprite.ase" "sprite"
            [⟨1, 1, 0, 0, 1, [0, 255, 0, 255]⟩] []).data
          ("#include \"" ++ baseName (headerFilePath "b/out") ++ "\"").data = false
      ∧ containsB (sourceText "a/sprite.ase" "sprite"
            [⟨1, 1, 0, 0, 1, [0, 255, 0, 255]⟩] []).data
          ("#include \"" ++ headerFilePath "b/out" ++ "\"").data = false := by
  exact ⟨rfl, by decide, by decide⟩

/-- C4 (amended): the emitted source text begins with its `#include`
directive, that directive names `<basename of the aseprite file>.h`
(the aseprite file's name with `.h` appended, which equals the produced
header's file name only when the two base names coincide), and —
provided the sprite identifier, the tag names and the aseprite file's
base name avoid `#` — the `#` of that directive is the only `#` in the
whole source text, so the directive is the only `#include`. -/
theorem source_include_names_aseprite_basename (af nm : String)
    (frames : List DerivedFrame) (tags : List ResolvedTag)
    (h1 : hashCount (baseName af) = 0) (h2 : hashCount nm = 0)
    (h3 : tagsHashFree tags = true) :
    startsWithB (sourceText af nm frames tags).data
        ("#include \"" ++ baseName af ++ ".h\"\n").data = true
      ∧ hashCount (sourceText af nm frames tags) = 1 := by
  have htagsZ : ∀ t ∈ tags, hashCount t.name = 0 := by
    rw [tagsHashFree, List.all_eq_true] at h3
    intro t ht
    simpa using h3 t ht
  constructor
  · have hd : (sourceText af nm frames tags).data
        = ("#include \"" ++ baseName af ++ ".h\"\n").data
          ++ ("\n" ++ sourceFrameArrays nm frames
              ++ joinSep "\n" (tags.map tagIndicesDecl) ++ "\n\n"
              ++ joinSep "\n\n" (tags.map (tagStructDecl nm)) ++ "\n").data := by
      simp [sourceText, String.data_append, List.append_assoc]
    rw [hd]
    exact startsWithB_append _ _
  · have hJ1 : hashCount (joinSep "\n" (tags.map tagIndicesDecl)) = 0 :=
      hashCount_joinSep _ _ (by decide) (fun x hx => by
        obtain ⟨t, ht, rfl⟩ := List.mem_map.mp hx
        exact hashCount_tagIndicesDecl t (htagsZ t ht))
    have hJ2 : hashCount (joinSep "\n\n" (tags.map (tagStructDecl nm))) = 0 :=
      hashCount_joinSep _ _ (by decide) (fun x hx => by
        obtain ⟨t, ht, rfl⟩ := List.mem_map.mp hx
        exact hashCount_tagStructDecl nm h2 t (htagsZ t ht))
    simp only [sourceText, hashCount_append, h1, hJ1, hJ2,
      hashCount_sourceFrameArrays nm h2 frames]
    decide

set_option maxRecDepth 4000 in
/-- Witness for `source_include_names_aseprite_basename` at a concrete
one-frame, one-tag emission. -/
theorem source_include_names_aseprite_basename_witness :
    (hashCount (baseName "a/sprite.ase") = 0 ∧ hashCount "sprite" = 0
        ∧ tagsHashFree [⟨"walk", [0], 1⟩] = true)
      ∧ startsWithB (sourceText "a/sprite.ase" "sprite"
            [⟨1, 1, 0, 0, 1, [0, 255, 0, 255]⟩] [⟨"walk", [0], 1⟩]).data
          ("#include \"" ++ baseName "a/sprite.ase" ++ ".h\"\n").data = true
      ∧ hashCount (sourceText "a/sprite.ase" "sprite"
          [⟨1, 1, 0, 0, 1, [0, 255, 0, 255]⟩] [⟨"walk", [0], 1⟩]) = 1 := by
  refine ⟨⟨by decide, by decide, by decide⟩, ?_, ?_⟩
  · exact (source_include_names_aseprite_basename "a/sprite.ase" "sprite"
      [⟨1, 1, 0, 0, 1, [0, 255, 0, 255]⟩] [⟨"walk", [0], 1⟩]
      (by decide) (by decide) (by decide)).1
  · exact (source_include_names_aseprite_basename "a/sprite.ase" "sprite"
      [⟨1, 1, 0, 0, 1, [0, 255, 0, 255]⟩] [⟨"walk", [0], 1⟩]
      (by decide) (by decide) (by decide)).2
